import Mathlib

/-!
Formal model of the task-routing and multi-agent collaboration core of the
agenticSeek repository (`sources/router.py` and
`sources/agents/collaborative_agent.py`), as a shallow embedding.

Conventions of the embedding:
* Python strings are Lean `String`s; the string operations the code relies on
  (`str.lower`, `str.split('.')`, `str.strip`, the `in` substring test) are
  re-implemented structurally over `String.data` (`List Char`) so that they
  compute by kernel reduction, with Python's semantics.
* The shared blackboard (`SharedContext.data`, a Python dict) is an
  association list in insertion order: assignment updates an existing key in
  place, otherwise appends, exactly like a Python dict.
* A worker (`Agent`) is a function from the prompt it receives to a
  `WorkerRun`: either its `process` coroutine raises (with a message and the
  wall-clock time elapsed until the raise), or it returns an answer, a
  reasoning trace, the value of its `get_success` flag, and its duration.
  Wall-clock durations are abstracted to the worker-declared `Nat`; the
  `ValueError` path for a missing agent is given duration 0.
* `asyncio` scheduling is modelled by explicit state passing.  In
  `execute_parallel` the concurrent blackboard writes are applied in task
  order (one linearization of the lock-serialized writes); the task results
  themselves are independent of that order because every prompt is built from
  the pre-batch snapshot, which is proved below.
* Classifier confidences (Python floats in [0,1]) are modelled as `ℚ`.
-/

/-- Value stored in the shared blackboard: the code writes result strings and
success booleans (`task_<id>_result`, `task_<id>_success`). -/
inductive BBVal where
  | s (v : String)
  | b (v : Bool)
deriving DecidableEq

/-- Generic Python-dict assignment on an association list: update the first
occurrence of the key in place, else append at the end. -/
def al_set {α : Type} : List (String × α) → String → α → List (String × α)
  | [], k, v => [(k, v)]
  | (k0, v0) :: t, k, v => if k0 = k then (k, v) :: t else (k0, v0) :: al_set t k v

/-- Generic Python-dict lookup on an association list. -/
def al_get {α : Type} : List (String × α) → String → Option α
  | [], _ => none
  | (k0, v0) :: t, k => if k0 = k then some v0 else al_get t k

/-- The `SharedContext.data` dict of `collaborative_agent.py`. -/
abbrev Blackboard := List (String × BBVal)

/-- `SharedContext.set` (the lock only serializes accesses; the model is the
serialized effect). -/
def bb_set (bb : Blackboard) (k : String) (v : BBVal) : Blackboard := al_set bb k v

/-- `SharedContext.get` with default `None`. -/
def bb_get (bb : Blackboard) (k : String) : Option BBVal := al_get bb k

/-- `AgentTask` dataclass of `collaborative_agent.py` with its defaults. -/
structure AgentTask where
  task_id : String
  agent_type : String
  description : String
  dependencies : List String
  priority : Int := 1
  timeout : Int := 300
  retry_count : Nat := 0
  max_retries : Nat := 2
deriving DecidableEq

/-- `TaskResult` dataclass of `collaborative_agent.py`. -/
structure TaskResult where
  task_id : String
  agent_type : String
  success : Bool
  result : String
  reasoning : String
  execution_time : Nat
  error_message : Option String := none
deriving DecidableEq

/-- `CollaborationMode` enum of `collaborative_agent.py`. -/
inductive CollaborationMode where
  | sequential
  | parallel
  | pipeline
  | competitive
deriving DecidableEq

/-- One invocation of a worker's `process(prompt, None)`: it either raises
(message, elapsed time) or returns (result, reasoning, `get_success`,
elapsed time). -/
inductive WorkerRun where
  | raise (msg : String) (dur : Nat)
  | ret (result reasoning : String) (success : Bool) (dur : Nat)

/-- The `agents` dict of `CollaborativeAgent`: agent type to worker; a worker
is a function of the prompt handed to `process`. -/
abbrev Env := String → Option (String → WorkerRun)

/-- Python `str.lower()` (character-wise lowering, as for all the ASCII and
CJK text the detector deals in). -/
def lower_str (s : String) : String := String.mk (s.data.map Char.toLower)

/-- Python `pat in s` substring test, structurally over the characters. -/
def sub_list (pat : List Char) : List Char → Bool
  | [] => pat.isEmpty
  | c :: rest => pat.isPrefixOf (c :: rest) || sub_list pat rest

/-- Python `pat in s` for strings. -/
def contains_sub (s pat : String) : Bool := sub_list pat.data s.data

/-- Python `text.split('.')` on the character list. -/
def split_chars_on_dot : List Char → List (List Char)
  | [] => [[]]
  | c :: rest =>
    let r := split_chars_on_dot rest
    if c = '.' then [] :: r
    else
      match r with
      | [] => [[c]]
      | h :: t => (c :: h) :: t

/-- Python `text.split('.')`. -/
def split_on_dot (s : String) : List String :=
  (split_chars_on_dot s.data).map (fun l => String.mk l)

/-- Python `str.strip()`: drop whitespace from both ends. -/
def trim_str (s : String) : String :=
  String.mk (((s.data.dropWhile Char.isWhitespace).reverse.dropWhile Char.isWhitespace).reverse)

/-- Display of a blackboard value inside an f-string, with the 200-character
truncation `_prepare_task_prompt` applies to long strings (Python `str(bool)`
prints `True` / `False`). -/
def value_str : BBVal → String
  | .s v => if v.length > 200 then (String.mk (v.data.take 200)) ++ "..." else v
  | .b true => "True"
  | .b false => "False"

/-- `CollaborativeAgent._prepare_task_prompt`: the prompt built from the task
description and the context snapshot handed to the task. -/
def prepare_task_prompt (task : AgentTask) (context_data : Blackboard) : String :=
  let prompt := "Task: " ++ task.description ++ "\n\n"
  let prompt :=
    if context_data.isEmpty then prompt
    else
      prompt ++ "Available context from previous tasks:\n" ++
        (context_data.foldl (fun acc kv => acc ++ "- " ++ kv.1 ++ ": " ++ value_str kv.2 ++ "\n") "") ++
        "\n"
  prompt ++ "Please complete this task using the available context information."

/-- The try-block of `CollaborativeAgent.execute_task` up to the worker call:
a missing agent type raises `ValueError`, otherwise the worker runs on the
prepared prompt.  `Except.error` carries the exception message and the
elapsed time; `Except.ok` carries (result, reasoning, `get_success`,
elapsed time). -/
def run_task (env : Env) (task : AgentTask) (context_data : Blackboard) :
    Except (String × Nat) (String × String × Bool × Nat) :=
  match env task.agent_type with
  | none => .error ("Agent type " ++ task.agent_type ++ " not available", 0)
  | some worker =>
    match worker (prepare_task_prompt task context_data) with
    | .raise msg dur => .error (msg, dur)
    | .ret r re s dur => .ok (r, re, s, dur)

/-- `CollaborativeAgent.execute_task`: on the success path the result string
and the `get_success` flag are written to the shared blackboard (in that
order) before returning; on the exception path a failed `TaskResult` with the
exception message is returned and nothing is written. -/
def execute_task (env : Env) (task : AgentTask) (context_data live : Blackboard) :
    TaskResult × Blackboard :=
  match run_task env task context_data with
  | .error (msg, dur) =>
    ({ task_id := task.task_id, agent_type := task.agent_type, success := false,
       result := "", reasoning := "", execution_time := dur, error_message := some msg }, live)
  | .ok (r, re, s, dur) =>
    ({ task_id := task.task_id, agent_type := task.agent_type, success := s,
       result := r, reasoning := re, execution_time := dur, error_message := none },
     bb_set (bb_set live ("task_" ++ task.task_id ++ "_result") (.s r))
       ("task_" ++ task.task_id ++ "_success") (.b s))

/-- `CollaborativeAgent.execute_parallel`: one `get_all()` snapshot is taken
at batch start and every task's prompt is prepared from it; `execute_task`
never raises, so the `gather(..., return_exceptions=True)` branch that would
convert an escaped exception is dead and the results are collected in task
order. -/
def execute_parallel (env : Env) (tasks : List AgentTask) (live : Blackboard) :
    List TaskResult × Blackboard :=
  let context_data := live
  tasks.foldl
    (fun st t =>
      let p := execute_task env t context_data st.2
      (st.1 ++ [p.1], p.2))
    ([], live)

/-- One iteration of the `execute_sequential` loop: snapshot the blackboard,
execute the task, and if the result is unsuccessful and retry budget remains,
retry once immediately with the same (stale) snapshot, replacing the result. -/
def seq_step (env : Env) (task : AgentTask) (live : Blackboard) : TaskResult × Blackboard :=
  let context_data := live
  let p := execute_task env task context_data live
  if ¬ p.1.success ∧ task.retry_count < task.max_retries then
    let task' := { task with retry_count := task.retry_count + 1 }
    execute_task env task' context_data p.2
  else p

/-- `CollaborativeAgent.execute_sequential`. -/
def execute_sequential (env : Env) (tasks : List AgentTask) (live : Blackboard) :
    List TaskResult × Blackboard :=
  match tasks with
  | [] => ([], live)
  | t :: ts =>
    let p := seq_step env t live
    let q := execute_sequential env ts p.2
    (p.1 :: q.1, q.2)

/-- The blackboard state at the moment task number `j` of a sequential run
has its prompt constructed (the `get_all()` snapshot it receives): the state
left behind by the first `j` tasks. -/
def ctx_at (env : Env) (live : Blackboard) (tasks : List AgentTask) (j : Nat) : Blackboard :=
  (execute_sequential env (tasks.take j) live).2

/-- The `task_dict` comprehension of `_sort_tasks_by_dependencies`. -/
def build_task_dict (tasks : List AgentTask) : List (String × AgentTask) :=
  tasks.foldl (fun d t => al_set d t.task_id t) []

/-- The recursive `visit` of `_sort_tasks_by_dependencies`, processing a work
list of task ids: an already-visited id is skipped; otherwise the id is
marked visited, and when it names a known task its dependencies are visited
first and the task is then appended.  The `Nat` argument is fuel for Lean's
termination checker only: each nested or successive visit strictly decreases
it, and `sort_tasks_by_dependencies` supplies more fuel than the number of id
occurrences in the input, which the recursion can never exceed, so the fuel-0
branch is unreachable from there and the model agrees with the unbounded
Python recursion. -/
def visit_many (dict : List (String × AgentTask)) :
    Nat → List String → List String × List AgentTask → List String × List AgentTask
  | _, [], st => st
  | 0, _ :: _, st => st
  | n + 1, id :: ids, st =>
    let st1 :=
      if id ∈ st.1 then st
      else
        match al_get dict id with
        | none => (id :: st.1, st.2)
        | some t =>
          let st2 := visit_many dict n t.dependencies (id :: st.1, st.2)
          (st2.1, st2.2 ++ [t])
    visit_many dict n ids st1

/-- `CollaborativeAgent._sort_tasks_by_dependencies`. -/
def sort_tasks_by_dependencies (tasks : List AgentTask) : List AgentTask :=
  let dict := build_task_dict tasks
  let fuel := tasks.length + (tasks.map (fun t => t.dependencies.length)).sum + 1
  (visit_many dict fuel (tasks.map (fun t => t.task_id)) ([], [])).2

/-- `CollaborativeAgent.execute_pipeline`: dependency-sort, then run the
sequential procedure. -/
def execute_pipeline (env : Env) (tasks : List AgentTask) (live : Blackboard) :
    List TaskResult × Blackboard :=
  execute_sequential env (sort_tasks_by_dependencies tasks) live

/-- The task list `execute_competitive` builds: the same description for each
candidate agent type, ids `competitive_<i>`, no dependencies. -/
def competitive_tasks (desc : String) (agent_types : List String) : List AgentTask :=
  agent_types.enum.map
    (fun p =>
      { task_id := "competitive_" ++ toString p.1, agent_type := p.2,
        description := desc, dependencies := [] })

/-- `CollaborativeAgent.execute_competitive`: run all candidates through the
parallel procedure, then return the successful result of least execution
time (Python `min` keeps the earliest of equal keys), or the first result if
none succeeded, or `None` for an empty candidate list. -/
def execute_competitive (env : Env) (desc : String) (agent_types : List String)
    (live : Blackboard) : Option TaskResult × Blackboard :=
  let pr := execute_parallel env (competitive_tasks desc agent_types) live
  let successful := pr.1.filter (fun r => r.success)
  match successful with
  | [] => (pr.1.head?, pr.2)
  | s :: rest =>
    (some (rest.foldl (fun best x => if x.execution_time < best.execution_time then x else best) s),
     pr.2)

/-- Exclusion word list of the `MVPCollaborationDetector` in `router.py`. -/
def exclusion_words : List String :=
  ["only", "just", "simply", "single", "alone", "只", "僅", "單純", "單獨", "獨自"]

/-- Collaboration keyword list of the `MVPCollaborationDetector`. -/
def collaboration_keywords : List String :=
  ["and then", "then", "after", "next", "followed by",
   "and also", "also", "and", "both", "simultaneously",
   "然後", "接著", "之後", "再", "先",
   "並且", "同時", "還要", "也要", "一起"]

/-- Action word list of the `MVPCollaborationDetector`. -/
def action_words : List String :=
  ["search", "find", "write", "create", "build", "make",
   "analyze", "download", "save", "send", "read", "process",
   "搜尋", "查找", "寫", "創建", "建立", "製作",
   "分析", "下載", "保存", "發送", "讀取", "處理"]

/-- Strong collaboration keyword list of the `MVPCollaborationDetector`. -/
def strong_keywords : List String :=
  ["and then", "然後", "接著", "and also", "並且", "同時"]

/-- `MVPCollaborationDetector.detect_collaborative_task` (which is what
`AgentRouter.detect_collaborative_task` delegates to): exclusion words first,
then keyword/action-count logic. -/
def detect_collaborative_task (text : String) : Bool :=
  let text_lower := lower_str text
  if exclusion_words.any (fun w => contains_sub text_lower w) then false
  else
    let found_keywords := collaboration_keywords.filter (fun k => contains_sub text_lower k)
    let action_count := (action_words.filter (fun w => contains_sub text_lower w)).length
    if ¬ found_keywords.isEmpty ∧ 2 ≤ action_count then true
    else if strong_keywords.any (fun k => contains_sub text_lower k) then true
    else if 3 ≤ action_count then true
    else false

/-- Stable descending insertion by confidence: the inserted pair goes before
the first element whose confidence is not larger, so earlier list elements
stay before later ones of equal confidence. -/
def insert_desc (p : String × ℚ) : List (String × ℚ) → List (String × ℚ)
  | [] => [p]
  | q :: t => if q.2 ≤ p.2 then p :: q :: t else q :: insert_desc p t

/-- Python `sorted(predictions, key=lambda x: x[1], reverse=True)` — a stable
sort, descending by confidence. -/
def sort_predictions (ps : List (String × ℚ)) : List (String × ℚ) :=
  ps.foldr insert_desc []

/-- `AgentRouter.estimate_complexity`, as a function of the classifier call's
outcome (`predict` raising, or the prediction list it returns). -/
def estimate_complexity (pred : Except String (List (String × ℚ))) : String :=
  match pred with
  | .error _ => "LOW"
  | .ok predictions =>
    match sort_predictions predictions with
    | [] => "LOW"
    | (complexity, confidence) :: _ =>
      if confidence < mkRat 1 2 then "HIGH"
      else if complexity = "HIGH" then "HIGH"
      else if complexity = "LOW" then "LOW"
      else "LOW"

/-- `AgentRouter.detect_task_type`: keyword routing of one clause to a
capability tag, with `talk` as the fallback. -/
def detect_task_type (text : String) : String :=
  let text_lower := lower_str text
  if ["write", "code", "script", "program", "debug", "create app"].any
      (fun w => contains_sub text_lower w) then "code"
  else if ["search", "browse", "web", "find online", "look up"].any
      (fun w => contains_sub text_lower w) then "web"
  else if ["file", "folder", "directory", "save", "organize"].any
      (fun w => contains_sub text_lower w) then "files"
  else "talk"

/-- Body of the decomposition loop of `AgentRouter.decompose_collaborative_task`:
strip the clause, skip it when empty, otherwise append one task with the next
sequential id and the tag `detect_task_type` assigns (the `if agent_type:`
guard of the source is kept even though the tag is never empty). -/
def decompose_step (st : List AgentTask × Nat) (sentence : String) : List AgentTask × Nat :=
  let s := trim_str sentence
  if s = "" then st
  else
    let agent_type := detect_task_type s
    if agent_type ≠ "" then
      (st.1 ++ [{ task_id := "task_" ++ toString st.2, agent_type := agent_type,
                  description := s, dependencies := [], priority := 1 }],
       st.2 + 1)
    else st

/-- `AgentRouter.decompose_collaborative_task`: split on `'.'` and run the
decomposition loop over the clauses, starting from task id counter 0. -/
def decompose_collaborative_task (text : String) : List AgentTask :=
  ((split_on_dot text).foldl decompose_step ([], 0)).1

/-- The non-empty stripped clauses of the input, in order: the clauses the
decomposer creates one task for. -/
def non_empty_clauses (text : String) : List String :=
  ((split_on_dot text).map trim_str).filter (fun s => s ≠ "")

/-- `AgentRouter.execute_collaborative_task`: decompose, return `None` when
no sub-task was produced, otherwise dispatch on the mode (Python's
`list(set(...))` in the competitive branch has unspecified order; the model
fixes first-occurrence order).  The unreachable `None` answer of
`execute_competitive` on a non-empty candidate list is mapped to an empty
result list. -/
def execute_collaborative_task (env : Env) (text : String) (mode : CollaborationMode)
    (live : Blackboard) : Option (List TaskResult) × Blackboard :=
  let tasks := decompose_collaborative_task text
  if tasks.isEmpty then (none, live)
  else
    match mode with
    | .parallel => let p := execute_parallel env tasks live; (some p.1, p.2)
    | .pipeline => let p := execute_pipeline env tasks live; (some p.1, p.2)
    | .competitive =>
      let agent_types := (tasks.map (fun t => t.agent_type)).eraseDups
      if 1 < agent_types.length then
        match execute_competitive env text agent_types live with
        | (some r, b) => (some [r], b)
        | (none, b) => (some [], b)
      else
        let p := execute_sequential env tasks live
        (some p.1, p.2)
    | .sequential =>
      let p := execute_sequential env tasks live
      (some p.1, p.2)

/-- Worker environment for concrete runs: a worker that succeeds quickly and
one that raises. -/
def env_mixed : Env := fun a =>
  if a = "good" then some (fun _ => .ret "ok" "fine" true 1)
  else if a = "bad" then some (fun _ => .raise "boom" 2)
  else none

/-- Three concrete tasks, the middle one handled by the raising worker. -/
def wtasks_mixed : List AgentTask :=
  [{ task_id := "0", agent_type := "good", description := "a", dependencies := [] },
   { task_id := "1", agent_type := "bad", description := "b", dependencies := [] },
   { task_id := "2", agent_type := "good", description := "c", dependencies := [] }]

/-- Worker environment in which every worker invocation raises. -/
def env_raising : Env := fun a =>
  if a = "w" then some (fun _ => .raise "boom" 1) else none

/-- Task A of the sequential counterexample: its worker always raises. -/
def wtask_A : AgentTask :=
  { task_id := "A", agent_type := "w", description := "a", dependencies := [] }

/-- Task B of the sequential counterexample. -/
def wtask_B : AgentTask :=
  { task_id := "B", agent_type := "w", description := "b", dependencies := [] }

/-- A concrete task handled by the succeeding worker of `env_mixed`. -/
def wtask_good : AgentTask :=
  { task_id := "0", agent_type := "good", description := "a", dependencies := [] }

/-- A worker that succeeds after 1000 time units. -/
def env_slow : Env := fun a =>
  if a = "slow" then some (fun _ => .ret "done" "r" true 1000) else none

/-- A task with a 1-unit timeout handed to the slow worker. -/
def wtask_slow : AgentTask :=
  { task_id := "t", agent_type := "slow", description := "d", dependencies := [], timeout := 1 }

/-- Competitive-scenario environment: the `code` worker succeeds in 1 unit,
the `web` worker fails. -/
def env_cw : Env := fun a =>
  if a = "code" then some (fun _ => .ret "c" "" true 1)
  else if a = "web" then some (fun _ => .ret "" "" false 2)
  else none

/-- Worker environment with no agents at all. -/
def env_none : Env := fun _ => none

/-- Cyclic-dependency task list with a dangling dependency id, for the
dependency sort. -/
def wtasks_cyc : List AgentTask :=
  [{ task_id := "a", agent_type := "x", description := "", dependencies := ["b"] },
   { task_id := "b", agent_type := "x", description := "", dependencies := ["a"] },
   { task_id := "c", agent_type := "x", description := "", dependencies := ["nope"] }]

/-- The result component of `execute_task` does not depend on the live
blackboard being written to, only on the context snapshot the prompt is
prepared from. -/
theorem execute_task_fst_eq (env : Env) (task : AgentTask) (ctx b1 b2 : Blackboard) :
    (execute_task env task ctx b1).1 = (execute_task env task ctx b2).1 := by
  unfold execute_task
  rcases run_task env task ctx with ⟨msg, dur⟩ | ⟨r, re, s, dur⟩ <;> rfl

theorem execute_parallel_go (env : Env) (ctx : Blackboard) (tasks : List AgentTask) :
    ∀ (acc : List TaskResult) (bb : Blackboard),
      (tasks.foldl (fun st t => ((st.1 ++ [(execute_task env t ctx st.2).1],
          (execute_task env t ctx st.2).2) : List TaskResult × Blackboard)) (acc, bb)).1
        = acc ++ tasks.map (fun t => (execute_task env t ctx ctx).1) := by
  induction tasks with
  | nil => intro acc bb; simp
  | cons t ts ih =>
    intro acc bb
    simp only [List.foldl_cons, List.map_cons]
    rw [ih]
    rw [execute_task_fst_eq env t ctx bb ctx]
    simp

/-- The results of `execute_parallel` are exactly the per-task results
computed against the pre-batch snapshot. -/
theorem execute_parallel_results (env : Env) (tasks : List AgentTask) (live : Blackboard) :
    (execute_parallel env tasks live).1
      = tasks.map (fun t => (execute_task env t live live).1) := by
  unfold execute_parallel
  exact execute_parallel_go env live tasks [] live

theorem execute_parallel_length (env : Env) (tasks : List AgentTask) (live : Blackboard) :
    (execute_parallel env tasks live).1.length = tasks.length := by
  rw [execute_parallel_results]; simp

/-- C3: in Parallel mode every task in the batch is executed against the one
Blackboard snapshot taken at the start of the batch: the result list equals
the per-task execution of each task with the pre-batch blackboard `live` as
its prompt context, and that per-task result is insensitive to whatever the
live blackboard has accumulated meanwhile — so no parallel sibling observes
another sibling's TaskResult when its prompt is constructed. -/
theorem parallel_snapshot_isolation (env : Env) (tasks : List AgentTask) (live : Blackboard) :
    (execute_parallel env tasks live).1
        = tasks.map (fun t => (execute_task env t live live).1) ∧
      ∀ (t : AgentTask) (b1 b2 : Blackboard),
        (execute_task env t live b1).1 = (execute_task env t live b2).1 := by
  exact ⟨execute_parallel_results env tasks live,
    fun t b1 b2 => execute_task_fst_eq env t live b1 b2⟩

theorem run_task_ok_error_message (env : Env) (task : AgentTask) (ctx live : Blackboard)
    (h : (run_task env task ctx).isOk = true) :
    (execute_task env task ctx live).1.error_message = none := by
  unfold execute_task
  rcases hr : run_task env task ctx with ⟨msg, dur⟩ | ⟨r, re, s, dur⟩
  · rw [hr] at h; simp [Except.isOk, Except.toBool] at h
  · rfl

/-- C1: if in a parallel batch exactly one task's execution raises (its
`run_task` yields an error, every other's returns), then the aggregated
result list has one entry per submitted task; the entry of the raising task
is marked failed and carries the exception's message; an entry carries an
error message exactly when it is that entry; and every entry is its own
task's stand-alone outcome against the batch snapshot, so the exception
aborted no sibling. -/
theorem parallel_isolation (env : Env) (tasks : List AgentTask) (live : Blackboard)
    (i : Nat) (ti : AgentTask) (msg : String) (dur : Nat)
    (hti : tasks.get? i = some ti)
    (herr : run_task env ti live = .error (msg, dur))
    (hothers : ∀ j t, j ≠ i → tasks.get? j = some t → (run_task env t live).isOk = true) :
    (execute_parallel env tasks live).1.length = tasks.length ∧
      ∀ j t, tasks.get? j = some t →
        ∃ r, (execute_parallel env tasks live).1.get? j = some r ∧
          r = (execute_task env t live live).1 ∧
          (r.error_message.isSome = true ↔ j = i) ∧
          (j = i → r.success = false ∧ r.error_message = some msg) := by
  refine ⟨execute_parallel_length env tasks live, ?_⟩
  intro j t ht
  refine ⟨(execute_task env t live live).1, ?_, rfl, ?_, ?_⟩
  · rw [execute_parallel_results, List.get?_map, ht]; rfl
  · constructor
    · intro hsome
      by_contra hne
      have := run_task_ok_error_message env t live live (hothers j t hne ht)
      rw [this] at hsome
      simp at hsome
    · intro hji
      subst hji
      have hteq : ti = t := by rw [hti] at ht; exact Option.some.inj ht
      subst hteq
      unfold execute_task
      rw [herr]
      rfl
  · intro hji
    subst hji
    have hteq : ti = t := by rw [hti] at ht; exact Option.some.inj ht
    subst hteq
    unfold execute_task
    rw [herr]
    exact ⟨rfl, rfl⟩

/-- Witness for C1 on a concrete three-task batch whose middle task raises. -/
theorem parallel_isolation_witness :
    (execute_parallel env_mixed wtasks_mixed []).1.length = wtasks_mixed.length ∧
      ∀ j t, wtasks_mixed.get? j = some t →
        ∃ r, (execute_parallel env_mixed wtasks_mixed []).1.get? j = some r ∧
          r = (execute_task env_mixed t [] []).1 ∧
          (r.error_message.isSome = true ↔ j = 1) ∧
          (j = 1 → r.success = false ∧ r.error_message = some "boom") := by
  refine parallel_isolation env_mixed wtasks_mixed [] 1
    { task_id := "1", agent_type := "bad", description := "b", dependencies := [] }
    "boom" 2 rfl rfl ?_
  intro j t hj ht
  rcases j with _ | _ | _ | n
  · have ht2 : some ({ task_id := "0", agent_type := "good", description := "a", dependencies := [] } : AgentTask) = some t := ht
    injection ht2 with h
    subst h
    decide
  · exact absurd rfl hj
  · have ht2 : some ({ task_id := "2", agent_type := "good", description := "c", dependencies := [] } : AgentTask) = some t := ht
    injection ht2 with h
    subst h
    decide
  · simp [wtasks_mixed, List.get?] at ht

/-- C6: any text containing an exclusion word (case-insensitively, CJK
equivalents included) is never flagged collaborative, whatever else it
contains. -/
theorem exclusion_precedence (text : String)
    (h : exclusion_words.any (fun w => contains_sub (lower_str text) w) = true) :
    detect_collaborative_task text = false := by
  simp [detect_collaborative_task, h]

/-- Witness for C6: a text containing the exclusion word `just` together with
several action words is rejected. -/
theorem exclusion_precedence_witness :
    exclusion_words.any (fun w => contains_sub (lower_str "just search and find and write it") w)
        = true ∧
      detect_collaborative_task "just search and find and write it" = false :=
  ⟨by decide, exclusion_precedence "just search and find and write it" (by decide)⟩

/-- Counterexample to C4: a task with timeout 1 whose worker takes 1000 time
units and succeeds is returned as a successful TaskResult with no error
message — the timeout is not enforced anywhere in `execute_task`. -/
theorem timeout_not_enforced_counterexample :
    wtask_slow.timeout = 1 ∧
      (execute_task env_slow wtask_slow [] []).1.execution_time = 1000 ∧
      (execute_task env_slow wtask_slow [] []).1.success = true ∧
      (execute_task env_slow wtask_slow [] []).1.error_message = none := by
  decide

/-- C4 amended: each SubTask carries a timeout field (default 300), but the
scheduler never consults it — the entire outcome of `execute_task` (result
and blackboard writes) is identical for every value of the timeout field, so
an over-time worker call is never converted into a timeout failure. -/
theorem execute_task_ignores_timeout (env : Env) (task : AgentTask) (x : Int)
    (ctx live : Blackboard) :
    execute_task env { task with timeout := x } ctx live = execute_task env task ctx live := by
  unfold execute_task run_task prepare_task_prompt
  rfl

/-- Counterexample to C9: on input `"..."` the decomposer produces zero
sub-tasks and `execute_collaborative_task` returns `None` — the request
produces no result at all; nothing re-routes it to single-task
classification. -/
theorem empty_decomposition_counterexample :
    decompose_collaborative_task "..." = [] ∧
      (execute_collaborative_task env_none "..." CollaborationMode.sequential []).1 = none := by
  decide

/-- C9 amended: whenever the Task Decomposer produces zero sub-tasks,
`execute_collaborative_task` detects it and returns `None` without invoking
any scheduling mode or worker; no fallback to single-task classification
happens on this path. -/
theorem empty_decomposition_no_fallback (env : Env) (text : String) (mode : CollaborationMode)
    (live : Blackboard) (h : decompose_collaborative_task text = []) :
    execute_collaborative_task env text mode live = (none, live) := by
  unfold execute_collaborative_task
  rw [h]
  rfl

/-- Witness for the amended C9 at the concrete input `"..."`. -/
theorem empty_decomposition_no_fallback_witness :
    decompose_collaborative_task "..." = [] ∧
      execute_collaborative_task env_none "..." CollaborationMode.parallel [] = (none, []) :=
  ⟨by decide, empty_decomposition_no_fallback env_none "..." CollaborationMode.parallel []
    (by decide)⟩

theorem insert_desc_mem (p : String × ℚ) (l : List (String × ℚ)) (q : String × ℚ) :
    q ∈ insert_desc p l ↔ q = p ∨ q ∈ l := by
  induction l with
  | nil => simp [insert_desc]
  | cons a t ih =>
    unfold insert_desc
    by_cases h : a.2 ≤ p.2
    · simp only [if_pos h, List.mem_cons]
    · simp only [if_neg h, List.mem_cons, ih]
      tauto

theorem insert_desc_pairwise (p : String × ℚ) (l : List (String × ℚ))
    (h : l.Pairwise (fun a b => b.2 ≤ a.2)) :
    (insert_desc p l).Pairwise (fun a b => b.2 ≤ a.2) := by
  induction l with
  | nil => simp [insert_desc]
  | cons a t ih =>
    unfold insert_desc
    rcases List.pairwise_cons.mp h with ⟨ha, ht⟩
    by_cases hc : a.2 ≤ p.2
    · rw [if_pos hc]
      refine List.pairwise_cons.mpr ⟨?_, h⟩
      intro q hq
      rcases List.mem_cons.mp hq with hq | hq
      · subst hq; exact hc
      · exact le_trans (ha q hq) hc
    · rw [if_neg hc]
      refine List.pairwise_cons.mpr ⟨?_, ih ht⟩
      intro q hq
      rcases (insert_desc_mem p t q).mp hq with hq | hq
      · subst hq; exact le_of_lt (lt_of_not_le hc)
      · exact ha q hq

theorem mem_sort_predictions (ps : List (String × ℚ)) (q : String × ℚ) :
    q ∈ sort_predictions ps ↔ q ∈ ps := by
  induction ps with
  | nil => simp [sort_predictions]
  | cons a t ih =>
    unfold sort_predictions at *
    simp only [List.foldr_cons]
    rw [insert_desc_mem]
    simp only [List.mem_cons, ih]

theorem sort_predictions_pairwise (ps : List (String × ℚ)) :
    (sort_predictions ps).Pairwise (fun a b => b.2 ≤ a.2) := by
  induction ps with
  | nil => simp [sort_predictions]
  | cons a t ih =>
    unfold sort_predictions at *
    simp only [List.foldr_cons]
    exact insert_desc_pairwise a _ ih

theorem sort_predictions_head_max (ps : List (String × ℚ)) (l : String) (c : ℚ)
    (rest : List (String × ℚ)) (h : sort_predictions ps = (l, c) :: rest) :
    ∀ p ∈ ps, p.2 ≤ c := by
  intro p hp
  have hmem : p ∈ sort_predictions ps := (mem_sort_predictions ps p).mpr hp
  rw [h] at hmem
  rcases List.mem_cons.mp hmem with hq | hq
  · subst hq; exact le_refl _
  · have hpw := sort_predictions_pairwise ps
    rw [h] at hpw
    exact List.pairwise_cons.mp hpw |>.1 p hq

/-- C7: `estimate_complexity` returns LOW when the classifier raised; LOW
when the prediction list is empty; otherwise it looks at the
highest-confidence prediction (the head of the stable descending sort, whose
confidence bounds every prediction's): below confidence 1/2 it returns HIGH,
and at confidence at least 1/2 it returns the predicted label (the trained
label set being HIGH and LOW). -/
theorem estimate_complexity_spec :
    (∀ e, estimate_complexity (.error e) = "LOW") ∧
      estimate_complexity (.ok []) = "LOW" ∧
      ∀ (ps : List (String × ℚ)) (l : String) (c : ℚ) (rest : List (String × ℚ)),
        sort_predictions ps = (l, c) :: rest →
          (∀ p ∈ ps, p.2 ≤ c) ∧
          (c < mkRat 1 2 → estimate_complexity (.ok ps) = "HIGH") ∧
          (¬ c < mkRat 1 2 → (l = "HIGH" ∨ l = "LOW") → estimate_complexity (.ok ps) = l) := by
  refine ⟨fun e => rfl, rfl, ?_⟩
  intro ps l c rest hsort
  have hok : ∀ qs : List (String × ℚ), estimate_complexity (.ok qs)
      = (match sort_predictions qs with
         | [] => "LOW"
         | (complexity, confidence) :: _ =>
           if confidence < mkRat 1 2 then "HIGH"
           else if complexity = "HIGH" then "HIGH"
           else if complexity = "LOW" then "LOW"
           else "LOW") := fun qs => rfl
  refine ⟨sort_predictions_head_max ps l c rest hsort, ?_, ?_⟩
  · intro hc
    rw [hok, hsort]
    simp only [if_pos hc]
  · intro hc hl
    rw [hok, hsort]
    simp only [if_neg hc]
    rcases hl with hl | hl <;> subst hl <;> simp

/-- Witness for C7: a two-label prediction list whose top confidence is 3/4
on HIGH yields HIGH. -/
theorem estimate_complexity_witness :
    sort_predictions [("LOW", mkRat 1 4), ("HIGH", mkRat 3 4)]
        = [("HIGH", mkRat 3 4), ("LOW", mkRat 1 4)] ∧
      estimate_complexity (.ok [("LOW", mkRat 1 4), ("HIGH", mkRat 3 4)]) = "HIGH" :=
  ⟨by decide,
    (estimate_complexity_spec.2.2 [("LOW", mkRat 1 4), ("HIGH", mkRat 3 4)] "HIGH"
      (mkRat 3 4) [("LOW", mkRat 1 4)] (by decide)).2.2 (by decide) (Or.inl rfl)⟩

theorem detect_task_type_ne_empty (s : String) : detect_task_type s ≠ "" := by
  simp only [detect_task_type]
  split_ifs <;> decide

theorem decompose_step_skip (st : List AgentTask × Nat) (sentence : String)
    (hs : trim_str sentence = "") : decompose_step st sentence = st := by
  unfold decompose_step
  rw [hs]
  rfl

theorem decompose_step_keep (st : List AgentTask × Nat) (sentence : String)
    (hs : trim_str sentence ≠ "") :
    decompose_step st sentence =
      (st.1 ++ [{ task_id := "task_" ++ toString st.2,
                  agent_type := detect_task_type (trim_str sentence),
                  description := trim_str sentence, dependencies := [], priority := 1 }],
       st.2 + 1) := by
  unfold decompose_step
  rw [if_neg hs, if_pos (detect_task_type_ne_empty (trim_str sentence))]

theorem decompose_go (l : List String) : ∀ (acc : List AgentTask) (n : Nat),
    (l.foldl decompose_step (acc, n)).1
      = acc ++ (((l.map trim_str).filter (fun s => s ≠ "")).enumFrom n).map
          (fun p =>
            { task_id := "task_" ++ toString p.1, agent_type := detect_task_type p.2,
              description := p.2, dependencies := [], priority := 1 }) := by
  induction l with
  | nil => intro acc n; simp
  | cons s t ih =>
    intro acc n
    simp only [List.foldl_cons, List.map_cons, List.filter_cons]
    by_cases hs : trim_str s = ""
    · rw [decompose_step_skip (acc, n) s hs]
      simp only [hs]
      rw [ih acc n]
      rfl
    · rw [decompose_step_keep (acc, n) s hs]
      simp only [decide_not, hs, decide_False, Bool.not_false, if_true]
      rw [ih]
      simp only [List.enumFrom, List.map_cons]
      simp

/-- C8: the decomposer produces exactly one SubTask per non-empty stripped
clause of the period-split input, in clause order, with sequential ids
`task_0, task_1, ...`, the capability tag `detect_task_type` assigns to the
clause (coding keywords to `code`, browsing keywords to `web`, filesystem
keywords to `files`, fallback `talk`), and an empty dependency list. -/
theorem decompose_characterization (text : String) :
    decompose_collaborative_task text =
        (non_empty_clauses text).enum.map
          (fun p =>
            { task_id := "task_" ++ toString p.1, agent_type := detect_task_type p.2,
              description := p.2, dependencies := [], priority := 1 }) ∧
      ∀ t ∈ decompose_collaborative_task text,
        t.dependencies = [] ∧ t.agent_type = detect_task_type t.description := by
  have hmain : decompose_collaborative_task text =
      (non_empty_clauses text).enum.map
        (fun p =>
          { task_id := "task_" ++ toString p.1, agent_type := detect_task_type p.2,
            description := p.2, dependencies := [], priority := 1 }) := by
    unfold decompose_collaborative_task non_empty_clauses
    rw [decompose_go]
    simp [List.enum]
  refine ⟨hmain, ?_⟩
  intro t ht
  rw [hmain] at ht
  rcases List.mem_map.mp ht with ⟨p, _, hp⟩
  rw [← hp]
  exact ⟨rfl, rfl⟩

theorem al_set_get_isSome {α : Type} (l : List (String × α)) (k : String) (v : α) :
    (al_get (al_set l k v) k).isSome = true := by
  induction l with
  | nil => simp [al_set, al_get]
  | cons p t ih =>
    unfold al_set
    by_cases h : p.1 = k
    · rw [if_pos h]
      simp [al_get]
    · rw [if_neg h]
      unfold al_get
      rw [if_neg h]
      exact ih

theorem al_set_preserves_isSome {α : Type} (l : List (String × α)) (k k2 : String) (v : α)
    (h : (al_get l k).isSome = true) : (al_get (al_set l k2 v) k).isSome = true := by
  induction l with
  | nil => simp [al_get] at h
  | cons p t ih =>
    unfold al_set
    by_cases hp : p.1 = k2
    · rw [if_pos hp]
      unfold al_get at h ⊢
      by_cases hk : k2 = k
      · rw [if_pos hk]; rfl
      · rw [if_neg hk]
        rw [← hp] at hk
        rw [if_neg hk] at h
        exact h
    · rw [if_neg hp]
      unfold al_get at h ⊢
      by_cases hk : p.1 = k
      · rw [if_pos hk]; rfl
      · rw [if_neg hk] at h ⊢
        exact ih h

theorem execute_task_preserves_isSome (env : Env) (task : AgentTask) (ctx live : Blackboard)
    (k : String) (h : (bb_get live k).isSome = true) :
    (bb_get (execute_task env task ctx live).2 k).isSome = true := by
  unfold execute_task
  rcases run_task env task ctx with ⟨msg, dur⟩ | ⟨r, re, s, dur⟩
  · exact h
  · exact al_set_preserves_isSome _ k _ _ (al_set_preserves_isSome _ k _ _ h)

theorem execute_task_ok_writes (env : Env) (task : AgentTask) (ctx live : Blackboard)
    (h : (run_task env task ctx).isOk = true) :
    (bb_get (execute_task env task ctx live).2 ("task_" ++ task.task_id ++ "_result")).isSome = true
      ∧ (bb_get (execute_task env task ctx live).2 ("task_" ++ task.task_id ++ "_success")).isSome
          = true := by
  unfold execute_task
  rcases hr : run_task env task ctx with ⟨msg, dur⟩ | ⟨r, re, s, dur⟩
  · rw [hr] at h; simp [Except.isOk, Except.toBool] at h
  · constructor
    · exact al_set_preserves_isSome _ _ _ _ (al_set_get_isSome _ _ _)
    · exact al_set_get_isSome _ _ _

theorem seq_step_ok_writes (env : Env) (task : AgentTask) (live : Blackboard)
    (h : (run_task env task live).isOk = true) :
    (bb_get (seq_step env task live).2 ("task_" ++ task.task_id ++ "_result")).isSome = true
      ∧ (bb_get (seq_step env task live).2 ("task_" ++ task.task_id ++ "_success")).isSome
          = true := by
  simp only [seq_step]
  split
  · constructor
    · exact execute_task_preserves_isSome env _ live _ _ (execute_task_ok_writes env task live live h).1
    · exact execute_task_preserves_isSome env _ live _ _ (execute_task_ok_writes env task live live h).2
  · exact execute_task_ok_writes env task live live h

theorem seq_step_preserves_isSome (env : Env) (task : AgentTask) (live : Blackboard)
    (k : String) (h : (bb_get live k).isSome = true) :
    (bb_get (seq_step env task live).2 k).isSome = true := by
  simp only [seq_step]
  split
  · exact execute_task_preserves_isSome env _ live _ k
      (execute_task_preserves_isSome env task live live k h)
  · exact execute_task_preserves_isSome env task live live k h

theorem execute_sequential_preserves_isSome (env : Env) (tasks : List AgentTask)
    (live : Blackboard) (k : String) (h : (bb_get live k).isSome = true) :
    (bb_get (execute_sequential env tasks live).2 k).isSome = true := by
  induction tasks generalizing live with
  | nil => exact h
  | cons t ts ih =>
    show (bb_get (execute_sequential env ts (seq_step env t live).2).2 k).isSome = true
    exact ih (seq_step env t live).2 (seq_step_preserves_isSome env t live k h)

theorem execute_sequential_snd_append (env : Env) (l1 l2 : List AgentTask) (live : Blackboard) :
    (execute_sequential env (l1 ++ l2) live).2
      = (execute_sequential env l2 (execute_sequential env l1 live).2).2 := by
  induction l1 generalizing live with
  | nil => rfl
  | cons t ts ih =>
    show (execute_sequential env (ts ++ l2) (seq_step env t live).2).2 = _
    exact ih (seq_step env t live).2

theorem ctx_at_succ (env : Env) (live : Blackboard) (tasks : List AgentTask) (i : Nat)
    (t : AgentTask) (h : tasks.get? i = some t) :
    ctx_at env live tasks (i + 1) = (seq_step env t (ctx_at env live tasks i)).2 := by
  unfold ctx_at
  rw [List.take_succ]
  rw [List.get?_eq_getElem?] at h
  rw [h]
  simp only [Option.toList_some]
  rw [execute_sequential_snd_append]
  rfl

/-- C2 amended: in Sequential (and hence Pipeline) execution, for a task A at
position `i` whose worker invocation returned (did not raise), the blackboard
snapshot from which any later task's prompt is constructed contains
`task_<A>_result` and `task_<A>_success`; when every attempt of A raised,
nothing is written for A (see the counterexample). -/
theorem sequential_result_visible (env : Env) (tasks : List AgentTask) (live : Blackboard)
    (i j : Nat) (hij : i < j) (t : AgentTask) (ht : tasks.get? i = some t)
    (hok : (run_task env t (ctx_at env live tasks i)).isOk = true) :
    (bb_get (ctx_at env live tasks j) ("task_" ++ t.task_id ++ "_result")).isSome = true ∧
      (bb_get (ctx_at env live tasks j) ("task_" ++ t.task_id ++ "_success")).isSome = true := by
  have h1 := seq_step_ok_writes env t (ctx_at env live tasks i) hok
  rw [← ctx_at_succ env live tasks i t ht] at h1
  have hsplit : tasks.take j = tasks.take (i + 1) ++ (tasks.take j).drop (i + 1) := by
    conv_lhs => rw [← List.take_append_drop (i + 1) (tasks.take j)]
    rw [List.take_take, Nat.min_eq_left hij]
  have hctx : ctx_at env live tasks j
      = (execute_sequential env ((tasks.take j).drop (i + 1)) (ctx_at env live tasks (i + 1))).2 := by
    unfold ctx_at
    conv_lhs => rw [hsplit, execute_sequential_snd_append]
  rw [hctx]
  exact ⟨execute_sequential_preserves_isSome env _ _ _ h1.1,
    execute_sequential_preserves_isSome env _ _ _ h1.2⟩

/-- Counterexample to C2 as stated: when task A's worker raises on every
attempt, no `task_A_result` is ever written, so at the moment task B's prompt
is constructed the blackboard read returns the default — the claim's
unconditional non-default guarantee fails for a failed predecessor. -/
theorem sequential_failed_write_counterexample :
    (run_task env_raising wtask_A (ctx_at env_raising [] [wtask_A, wtask_B] 0)).isOk = false ∧
      bb_get (ctx_at env_raising [] [wtask_A, wtask_B] 1) "task_A_result" = none ∧
      bb_get (ctx_at env_raising [] [wtask_A, wtask_B] 1) "task_A_success" = none ∧
      (execute_sequential env_raising [wtask_A, wtask_B] []).1.length = 2 := by
  decide

/-- Witness for the amended C2: a succeeding first task's result keys are
present in the snapshot its successor is prompted from. -/
theorem sequential_result_visible_witness :
    (run_task env_mixed wtask_good (ctx_at env_mixed [] [wtask_good, wtask_B] 0)).isOk = true ∧
      ((bb_get (ctx_at env_mixed [] [wtask_good, wtask_B] 1)
            ("task_" ++ wtask_good.task_id ++ "_result")).isSome = true ∧
        (bb_get (ctx_at env_mixed [] [wtask_good, wtask_B] 1)
            ("task_" ++ wtask_good.task_id ++ "_success")).isSome = true) :=
  ⟨by decide,
    sequential_result_visible env_mixed [wtask_good, wtask_B] [] 0 1 (by decide) wtask_good rfl
      (by decide)⟩

theorem foldl_min_time_mem (rs : List TaskResult) :
    ∀ s : TaskResult,
      rs.foldl (fun best x => if x.execution_time < best.execution_time then x else best) s
        ∈ s :: rs := by
  induction rs with
  | nil => intro s; simp
  | cons x xs ih =>
    intro s
    simp only [List.foldl_cons]
    by_cases hc : x.execution_time < s.execution_time
    · rw [if_pos hc]
      rcases List.mem_cons.mp (ih x) with hm | hm
      · rw [hm]
        exact List.mem_cons_of_mem _ (List.mem_cons_self _ _)
      · exact List.mem_cons_of_mem _ (List.mem_cons_of_mem _ hm)
    · rw [if_neg hc]
      rcases List.mem_cons.mp (ih s) with hm | hm
      · rw [hm]
        exact List.mem_cons_self _ _
      · exact List.mem_cons_of_mem _ (List.mem_cons_of_mem _ hm)

theorem foldl_min_time_le (rs : List TaskResult) :
    ∀ s : TaskResult, ∀ x ∈ s :: rs,
      (rs.foldl (fun best y => if y.execution_time < best.execution_time then y else best)
          s).execution_time ≤ x.execution_time := by
  induction rs with
  | nil =>
    intro s x hx
    rcases List.mem_cons.mp hx with h | h
    · subst h; simp
    · simp at h
  | cons y ys ih =>
    intro s x hx
    simp only [List.foldl_cons]
    have hle_s : (if y.execution_time < s.execution_time then y else s).execution_time
        ≤ s.execution_time := by
      by_cases hc : y.execution_time < s.execution_time
      · rw [if_pos hc]; exact Nat.le_of_lt hc
      · rw [if_neg hc]
    have hle_y : (if y.execution_time < s.execution_time then y else s).execution_time
        ≤ y.execution_time := by
      by_cases hc : y.execution_time < s.execution_time
      · rw [if_pos hc]
      · rw [if_neg hc]; exact Nat.le_of_not_lt hc
    rcases List.mem_cons.mp hx with h | h
    · rw [h]
      exact le_trans (ih _ _ (List.mem_cons_self _ _)) hle_s
    · rcases List.mem_cons.mp h with h2 | h2
      · rw [h2]
        exact le_trans (ih _ _ (List.mem_cons_self _ _)) hle_y
      · exact ih _ x (List.mem_cons_of_mem _ h2)

/-- C5: for a non-empty candidate tag list, `execute_competitive` runs the
same description against each tagged worker (one task per tag, all carrying
the description) through `execute_parallel`, and always returns a result:
the successful result of least execution time among the batch when any
candidate succeeded, otherwise the first result of the batch. -/
theorem competitive_selects_best (env : Env) (desc : String) (agent_types : List String)
    (live : Blackboard) (h : agent_types ≠ []) :
    (∀ t ∈ competitive_tasks desc agent_types, t.description = desc) ∧
      (competitive_tasks desc agent_types).map (fun t => t.agent_type) = agent_types ∧
      ∃ r, (execute_competitive env desc agent_types live).1 = some r ∧
        r ∈ (execute_parallel env (competitive_tasks desc agent_types) live).1 ∧
        ((∃ s ∈ (execute_parallel env (competitive_tasks desc agent_types) live).1,
            s.success = true) →
          r.success = true ∧
            ∀ s ∈ (execute_parallel env (competitive_tasks desc agent_types) live).1,
              s.success = true → r.execution_time ≤ s.execution_time) ∧
        ((∀ s ∈ (execute_parallel env (competitive_tasks desc agent_types) live).1,
            s.success = false) →
          (execute_parallel env (competitive_tasks desc agent_types) live).1.head? = some r) := by
  refine ⟨?_, ?_, ?_⟩
  · intro t ht
    rcases List.mem_map.mp ht with ⟨p, _, hp⟩
    rw [← hp]
  · unfold competitive_tasks
    rw [List.map_map]
    exact List.enum_map_snd agent_types
  · have hlen : (execute_parallel env (competitive_tasks desc agent_types) live).1.length
        = agent_types.length := by
      rw [execute_parallel_length]
      unfold competitive_tasks
      rw [List.length_map, List.enum_length]
    have hne : (execute_parallel env (competitive_tasks desc agent_types) live).1 ≠ [] := by
      intro h0
      rw [h0] at hlen
      exact h (List.eq_nil_of_length_eq_zero hlen.symm)
    rcases hfil : (execute_parallel env (competitive_tasks desc agent_types) live).1.filter
        (fun r => r.success) with _ | ⟨s0, rest⟩
    · rcases hh : (execute_parallel env (competitive_tasks desc agent_types) live).1.head?
          with _ | r0
      · exact absurd (List.head?_eq_none_iff.mp hh) hne
      · refine ⟨r0, ?_, ?_, ?_, ?_⟩
        · simp only [execute_competitive]
          rw [hfil]
          exact hh
        · exact List.mem_of_mem_head? hh
        · intro hex
          exfalso
          rcases hex with ⟨s, hs, hsucc⟩
          have hmem : s ∈ (execute_parallel env (competitive_tasks desc agent_types) live).1.filter
              (fun r => r.success) := List.mem_filter.mpr ⟨hs, hsucc⟩
          rw [hfil] at hmem
          simp at hmem
        · intro _
          rfl
    · refine ⟨rest.foldl
          (fun best x => if x.execution_time < best.execution_time then x else best) s0,
        ?_, ?_, ?_, ?_⟩
      · simp only [execute_competitive]
        rw [hfil]
      · have hm := foldl_min_time_mem rest s0
        rw [← hfil] at hm
        exact List.mem_of_mem_filter hm
      · intro _
        constructor
        · have hm := foldl_min_time_mem rest s0
          rw [← hfil] at hm
          exact (List.mem_filter.mp hm).2
        · intro s hs hsucc
          have hsf : s ∈ (execute_parallel env (competitive_tasks desc agent_types) live).1.filter
              (fun r => r.success) := List.mem_filter.mpr ⟨hs, hsucc⟩
          rw [hfil] at hsf
          exact foldl_min_time_le rest s0 s hsf
      · intro hall
        exfalso
        have hs0 : s0 ∈ (execute_parallel env (competitive_tasks desc agent_types) live).1.filter
            (fun r => r.success) := by rw [hfil]; exact List.mem_cons_self _ _
        have hs0m := List.mem_of_mem_filter hs0
        have hs0s : s0.success = true := (List.mem_filter.mp hs0).2
        rw [hall s0 hs0m] at hs0s
        exact Bool.false_ne_true hs0s

/-- Witness for C5: with candidates `code` (succeeds in 1) and `web` (fails),
a result is returned and it is the successful least-time one. -/
theorem competitive_selects_best_witness :
    (["code", "web"] : List String) ≠ [] ∧
      ((∀ t ∈ competitive_tasks "go" ["code", "web"], t.description = "go") ∧
        (competitive_tasks "go" ["code", "web"]).map (fun t => t.agent_type) = ["code", "web"] ∧
        ∃ r, (execute_competitive env_cw "go" ["code", "web"] []).1 = some r ∧
          r ∈ (execute_parallel env_cw (competitive_tasks "go" ["code", "web"]) []).1 ∧
          ((∃ s ∈ (execute_parallel env_cw (competitive_tasks "go" ["code", "web"]) []).1,
              s.success = true) →
            r.success = true ∧
              ∀ s ∈ (execute_parallel env_cw (competitive_tasks "go" ["code", "web"]) []).1,
                s.success = true → r.execution_time ≤ s.execution_time) ∧
          ((∀ s ∈ (execute_parallel env_cw (competitive_tasks "go" ["code", "web"]) []).1,
              s.success = false) →
            (execute_parallel env_cw (competitive_tasks "go" ["code", "web"]) []).1.head?
              = some r)) :=
  ⟨by decide, competitive_selects_best env_cw "go" ["code", "web"] [] (by decide)⟩

theorem al_set_append {α : Type} (l : List (String × α)) (k : String) (v : α)
    (hk : al_get l k = none) : al_set l k v = l ++ [(k, v)] := by
  induction l with
  | nil => rfl
  | cons p t ih =>
    unfold al_get at hk
    by_cases hp : p.1 = k
    · rw [if_pos hp] at hk
      simp at hk
    · rw [if_neg hp] at hk
      unfold al_set
      rw [if_neg hp, ih hk]
      rfl

theorem al_get_eq_none_iff {α : Type} (l : List (String × α)) (k : String) :
    al_get l k = none ↔ k ∉ l.map Prod.fst := by
  induction l with
  | nil => simp [al_get]
  | cons p t ih =>
    unfold al_get
    by_cases hp : p.1 = k
    · rw [if_pos hp]
      simp [hp]
    · rw [if_neg hp]
      simp only [List.map_cons, List.mem_cons, ih]
      constructor
      · intro hnone hor
        rcases hor with hor | hor
        · exact hp hor.symm
        · exact hnone hor
      · intro hno hmem
        exact hno (Or.inr hmem)

theorem build_task_dict_go (ts : List AgentTask) : ∀ (acc : List (String × AgentTask)),
    (∀ t ∈ ts, t.task_id ∉ acc.map Prod.fst) →
    (ts.map (fun t => t.task_id)).Nodup →
    ts.foldl (fun d t => al_set d t.task_id t) acc
      = acc ++ ts.map (fun t => (t.task_id, t)) := by
  induction ts with
  | nil => intro acc _ _; simp
  | cons t ts' ih =>
    intro acc hacc hnd
    simp only [List.foldl_cons, List.map_cons]
    have hget : al_get acc t.task_id = none :=
      (al_get_eq_none_iff acc t.task_id).mpr (hacc t (List.mem_cons_self _ _))
    have hnd2 : (∀ x ∈ ts', ¬x.task_id = t.task_id)
        ∧ (List.map (fun t => t.task_id) ts').Nodup := by simpa using hnd
    have h1 : ∀ u ∈ ts', u.task_id ∉ (acc ++ [(t.task_id, t)]).map Prod.fst := by
      intro u hu
      rw [List.map_append]
      intro hmem
      rcases List.mem_append.mp hmem with hm | hm
      · exact hacc u (List.mem_cons_of_mem _ hu) hm
      · simp at hm
        exact hnd2.1 u hu hm
    rw [al_set_append acc t.task_id t hget, ih _ h1 hnd2.2]
    simp

theorem build_task_dict_eq (tasks : List AgentTask)
    (h : (tasks.map (fun t => t.task_id)).Nodup) :
    build_task_dict tasks = tasks.map (fun t => (t.task_id, t)) := by
  unfold build_task_dict
  rw [build_task_dict_go tasks [] (by simp) h]
  simp

theorem al_get_map_pair {tasks : List AgentTask} {k : String} {t : AgentTask}
    (h : al_get (tasks.map (fun u => (u.task_id, u))) k = some t) :
    t.task_id = k ∧ t ∈ tasks := by
  induction tasks with
  | nil => simp [al_get] at h
  | cons u us ih =>
    simp only [List.map_cons] at h
    unfold al_get at h
    by_cases hu : u.task_id = k
    · simp only [if_pos hu] at h
      have : u = t := by simpa using h
      subst this
      exact ⟨hu, List.mem_cons_self _ _⟩
    · simp only [if_neg hu] at h
      rcases ih h with ⟨h1, h2⟩
      exact ⟨h1, List.mem_cons_of_mem _ h2⟩

theorem al_get_map_pair_self (tasks : List AgentTask)
    (h : (tasks.map (fun t => t.task_id)).Nodup) (t : AgentTask) (ht : t ∈ tasks) :
    al_get (tasks.map (fun u => (u.task_id, u))) t.task_id = some t := by
  induction tasks with
  | nil => simp at ht
  | cons u us ih =>
    have hnd : (∀ x ∈ us, ¬x.task_id = u.task_id)
        ∧ (List.map (fun t => t.task_id) us).Nodup := by simpa using h
    rcases List.mem_cons.mp ht with h1 | h1
    · subst h1
      simp only [List.map_cons]
      unfold al_get
      rw [if_pos rfl]
    · have hne : u.task_id ≠ t.task_id := fun he => hnd.1 t h1 he.symm
      simp only [List.map_cons]
      unfold al_get
      rw [if_neg hne]
      exact ih hnd.2 h1

theorem visit_many_cons (dict : List (String × AgentTask)) (n : Nat) (id : String)
    (ids : List String) (st : List String × List AgentTask) :
    visit_many dict (n + 1) (id :: ids) st
      = visit_many dict n ids
          (if id ∈ st.1 then st
           else
             match al_get dict id with
             | none => (id :: st.1, st.2)
             | some t =>
               ((visit_many dict n t.dependencies (id :: st.1, st.2)).1,
                (visit_many dict n t.dependencies (id :: st.1, st.2)).2 ++ [t])) := rfl

theorem visit_many_mono (dict : List (String × AgentTask)) :
    ∀ (n : Nat) (ids : List String) (st : List String × List AgentTask) (x : String),
      x ∈ st.1 → x ∈ (visit_many dict n ids st).1 := by
  intro n
  induction n with
  | zero =>
    intro ids st x hx
    cases ids with
    | nil => exact hx
    | cons a as => exact hx
  | succ n ih =>
    intro ids st x hx
    cases ids with
    | nil => exact hx
    | cons id rest =>
      rw [visit_many_cons]
      by_cases hid : id ∈ st.1
      · rw [if_pos hid]
        exact ih rest st x hx
      · rw [if_neg hid]
        rcases hget : al_get dict id with _ | t
        · simp only [hget]
          exact ih rest _ x (List.mem_cons_of_mem _ hx)
        · simp only [hget]
          exact ih rest _ x
            (ih t.dependencies (id :: st.1, st.2) x (List.mem_cons_of_mem _ hx))

theorem visit_many_visits (dict : List (String × AgentTask)) :
    ∀ (n : Nat) (ids : List String) (st : List String × List AgentTask),
      ids.length < n → ∀ id ∈ ids, id ∈ (visit_many dict n ids st).1 := by
  intro n
  induction n with
  | zero =>
    intro ids st hlen
    exact absurd hlen (Nat.not_lt_zero _)
  | succ n ih =>
    intro ids st hlen id hid
    cases ids with
    | nil => simp at hid
    | cons a rest =>
      rw [visit_many_cons]
      rcases List.mem_cons.mp hid with h1 | h1
      · subst h1
        apply visit_many_mono dict n rest _ id
        by_cases ha : id ∈ st.1
        · rw [if_pos ha]
          exact ha
        · rw [if_neg ha]
          rcases hget : al_get dict id with _ | t
          · simp only [hget]
            exact List.mem_cons_self _ _
          · simp only [hget]
            exact visit_many_mono dict n t.dependencies (id :: st.1, st.2) id
              (List.mem_cons_self _ _)
      · exact ih rest _ (Nat.lt_of_succ_lt_succ (by simpa using hlen)) id h1

theorem visit_many_inv (dict : List (String × AgentTask))
    (hdict : ∀ k t, al_get dict k = some t → t.task_id = k) :
    ∀ (n : Nat) (ids P : List String) (st : List String × List AgentTask),
      (∀ x ∈ P, x ∈ st.1) →
      (∀ t ∈ st.2, al_get dict t.task_id = some t) →
      ((st.2.map (fun t => t.task_id)).Nodup) →
      (∀ k t, al_get dict k = some t → ((k ∈ st.1 ∧ k ∉ P) ↔ t ∈ st.2)) →
      ((∀ x ∈ P, x ∈ (visit_many dict n ids st).1) ∧
        (∀ t ∈ (visit_many dict n ids st).2, al_get dict t.task_id = some t) ∧
        (((visit_many dict n ids st).2.map (fun t => t.task_id)).Nodup) ∧
        (∀ k t, al_get dict k = some t →
          ((k ∈ (visit_many dict n ids st).1 ∧ k ∉ P) ↔ t ∈ (visit_many dict n ids st).2))) := by
  intro n
  induction n with
  | zero =>
    intro ids P st hP hent hnd hiff
    cases ids with
    | nil => exact ⟨hP, hent, hnd, hiff⟩
    | cons a as => exact ⟨hP, hent, hnd, hiff⟩
  | succ n ih =>
    intro ids P st hP hent hnd hiff
    cases ids with
    | nil => exact ⟨hP, hent, hnd, hiff⟩
    | cons id rest =>
      rw [visit_many_cons]
      by_cases hid : id ∈ st.1
      · rw [if_pos hid]
        exact ih rest P st hP hent hnd hiff
      · rw [if_neg hid]
        rcases hget : al_get dict id with _ | t0
        · simp only [hget]
          refine ih rest P (id :: st.1, st.2) ?_ hent hnd ?_
          · exact fun x hx => List.mem_cons_of_mem _ (hP x hx)
          · intro k t hkt
            constructor
            · intro ⟨hk, hkp⟩
              rcases List.mem_cons.mp hk with hk | hk
              · subst hk
                rw [hget] at hkt
                cases hkt
              · exact (hiff k t hkt).mp ⟨hk, hkp⟩
            · intro htm
              rcases (hiff k t hkt).mpr htm with ⟨hk, hkp⟩
              exact ⟨List.mem_cons_of_mem _ hk, hkp⟩
        · simp only [hget]
          have ht0id : t0.task_id = id := hdict id t0 hget
          have hidP : id ∉ P := fun hin => hid (hP id hin)
          have hinner := ih t0.dependencies (id :: P) (id :: st.1, st.2)
            (by
              intro x hx
              rcases List.mem_cons.mp hx with hx | hx
              · subst hx; exact List.mem_cons_self _ _
              · exact List.mem_cons_of_mem _ (hP x hx))
            hent hnd
            (by
              intro k t hkt
              by_cases hk_id : k = id
              · subst hk_id
                have ht_t0 : t = t0 := by
                  rw [hget] at hkt
                  exact (Option.some.inj hkt).symm
                subst ht_t0
                apply iff_of_false
                · intro ⟨_, hknp⟩
                  exact hknp (List.mem_cons_self _ _)
                · intro htm
                  exact hid ((hiff k t hkt).mpr htm).1
              · constructor
                · intro ⟨hk, hkp⟩
                  rcases List.mem_cons.mp hk with hk | hk
                  · exact absurd hk hk_id
                  · exact (hiff k t hkt).mp ⟨hk, fun hp => hkp (List.mem_cons_of_mem _ hp)⟩
                · intro htm
                  rcases (hiff k t hkt).mpr htm with ⟨hk, hkp⟩
                  refine ⟨List.mem_cons_of_mem _ hk, ?_⟩
                  intro hin
                  rcases List.mem_cons.mp hin with hin | hin
                  · exact hk_id hin
                  · exact hkp hin)
          obtain ⟨ihP, ihent, ihnd, ihiff⟩ := hinner
          have hmemid : id ∈ (visit_many dict n t0.dependencies (id :: st.1, st.2)).1 :=
            ihP id (List.mem_cons_self _ _)
          have ht0_not_inner : t0 ∉ (visit_many dict n t0.dependencies (id :: st.1, st.2)).2 := by
            intro hin
            exact (((ihiff id t0 hget).mpr hin).2) (List.mem_cons_self _ _)
          refine ih rest P
            ((visit_many dict n t0.dependencies (id :: st.1, st.2)).1,
             (visit_many dict n t0.dependencies (id :: st.1, st.2)).2 ++ [t0])
            ?_ ?_ ?_ ?_
          · exact fun x hx => ihP x (List.mem_cons_of_mem _ hx)
          · intro t htm
            rcases List.mem_append.mp htm with hm | hm
            · exact ihent t hm
            · have : t = t0 := by simpa using hm
              subst this
              rw [ht0id]
              exact hget
          · rw [List.map_append]
            rw [List.nodup_append]
            refine ⟨ihnd, by simp, ?_⟩
            intro a ha hb
            have hb2 : a = t0.task_id := by simpa using hb
            rcases List.mem_map.mp ha with ⟨u, hu, hua⟩
            have hu_get := ihent u hu
            have : u.task_id = id := by rw [hua, hb2, ht0id]
            rw [this] at hu_get
            have hu_t0 : u = t0 := by
              rw [hget] at hu_get
              exact (Option.some.inj hu_get).symm
            subst hu_t0
            exact ht0_not_inner hu
          · intro k t hkt
            by_cases hk_id : k = id
            · subst hk_id
              have ht_t0 : t = t0 := by
                rw [hget] at hkt
                exact (Option.some.inj hkt).symm
              subst ht_t0
              apply iff_of_true
              · exact ⟨hmemid, hidP⟩
              · exact List.mem_append.mpr (Or.inr (List.mem_cons_self _ _))
            · have hne_t0 : t ≠ t0 := by
                intro he
                apply hk_id
                rw [← hdict k t hkt, he, ht0id]
              constructor
              · intro ⟨hk, hkp⟩
                refine List.mem_append.mpr (Or.inl ?_)
                refine (ihiff k t hkt).mp ⟨hk, ?_⟩
                intro hin
                rcases List.mem_cons.mp hin with hin | hin
                · exact hk_id hin
                · exact hkp hin
              · intro htm
                rcases List.mem_append.mp htm with hm | hm
                · rcases (ihiff k t hkt).mpr hm with ⟨hk, hkp⟩
                  exact ⟨hk, fun hp => hkp (List.mem_cons_of_mem _ hp)⟩
                · have : t = t0 := by simpa using hm
                  exact absurd this hne_t0

theorem execute_sequential_length (env : Env) (tasks : List AgentTask) (live : Blackboard) :
    (execute_sequential env tasks live).1.length = tasks.length := by
  induction tasks generalizing live with
  | nil => rfl
  | cons t ts ih =>
    show ((seq_step env t live).1 :: (execute_sequential env ts (seq_step env t live).2).1).length
      = ts.length + 1
    simp [ih]

/-- C10: for pairwise-distinct task ids, the dependency sort of Pipeline mode
returns a permutation of its input — every input task appears exactly once —
even on cyclic dependency graphs or dependencies naming unknown ids; hence
Pipeline mode hands a list of the same length (no task dropped or
duplicated) to sequential execution, which returns one result per task. -/
theorem sort_tasks_permutation (tasks : List AgentTask)
    (h : (tasks.map (fun t => t.task_id)).Nodup) :
    (sort_tasks_by_dependencies tasks).Perm tasks ∧
      ∀ (env : Env) (live : Blackboard),
        (execute_pipeline env tasks live).1.length = tasks.length := by
  have key : ∀ n : Nat, (tasks.map (fun t => t.task_id)).length < n →
      ((visit_many (tasks.map (fun u => (u.task_id, u))) n (tasks.map (fun t => t.task_id))
        ([], [])).2).Perm tasks := by
    intro n hn
    have hdict : ∀ k t, al_get (tasks.map (fun u => (u.task_id, u))) k = some t →
        t.task_id = k := fun k t hkt => (al_get_map_pair hkt).1
    obtain ⟨_, hent, hnd, hiff⟩ :=
      visit_many_inv (tasks.map (fun u => (u.task_id, u))) hdict n
        (tasks.map (fun t => t.task_id)) [] ([], []) (by simp) (by simp) (by simp)
        (by intro k t _; simp)
    have hsub : ∀ t ∈ (visit_many (tasks.map (fun u => (u.task_id, u))) n
        (tasks.map (fun t => t.task_id)) ([], [])).2, t ∈ tasks :=
      fun t ht => (al_get_map_pair (hent t ht)).2
    have hsup : ∀ t ∈ tasks, t ∈ (visit_many (tasks.map (fun u => (u.task_id, u))) n
        (tasks.map (fun t => t.task_id)) ([], [])).2 := by
      intro t ht
      have hk := al_get_map_pair_self tasks h t ht
      have hv : t.task_id ∈ (visit_many (tasks.map (fun u => (u.task_id, u))) n
          (tasks.map (fun t => t.task_id)) ([], [])).1 :=
        visit_many_visits (tasks.map (fun u => (u.task_id, u))) n
          (tasks.map (fun t => t.task_id)) ([], []) hn t.task_id
          (List.mem_map.mpr ⟨t, ht, rfl⟩)
      exact (hiff t.task_id t hk).mp ⟨hv, by simp⟩
    have hnd2 : (visit_many (tasks.map (fun u => (u.task_id, u))) n
        (tasks.map (fun t => t.task_id)) ([], [])).2.Nodup := List.Nodup.of_map _ hnd
    have hndt : tasks.Nodup := List.Nodup.of_map _ h
    exact List.Subperm.antisymm (List.subperm_of_subset hnd2 hsub)
      (List.subperm_of_subset hndt hsup)
  have hperm : (sort_tasks_by_dependencies tasks).Perm tasks := by
    have hp := key (tasks.length + (tasks.map (fun t => t.dependencies.length)).sum + 1)
      (by rw [List.length_map]; omega)
    simp only [sort_tasks_by_dependencies]
    rw [build_task_dict_eq tasks h]
    exact hp
  refine ⟨hperm, ?_⟩
  intro env live
  unfold execute_pipeline
  rw [execute_sequential_length]
  exact hperm.length_eq

/-- Witness for C10 on a concrete task list with a dependency cycle between
`a` and `b` and a dangling dependency on `c`. -/
theorem sort_tasks_permutation_witness :
    (wtasks_cyc.map (fun t => t.task_id)).Nodup ∧
      ((sort_tasks_by_dependencies wtasks_cyc).Perm wtasks_cyc ∧
        ∀ (env : Env) (live : Blackboard),
          (execute_pipeline env wtasks_cyc live).1.length = wtasks_cyc.length) :=
  ⟨by decide, sort_tasks_permutation wtasks_cyc (by decide)⟩
